import Mathlib

/-!
Verification of the modular-kb-vscode proxy subsystem: the streaming
interception proxy (src/proxy/proxy.ts), the default transformer
(src/proxy/orchestrator-adapter.ts) and the process supervisor
(src/proxy/ProxyManager.ts), shallowly embedded in Lean.
-/

namespace ModularKB

/-- One chat message, as carried in the messages array of a
chat-completion request body. -/
structure Message where
  role : String
  content : String
deriving DecidableEq, Repr

/-- Correlation metadata built by the chat-completions handler from the
request: model name, caller ip, path and method (headers elided). -/
structure Meta where
  model : String
  ip : String
  reqPath : String
  method : String
deriving DecidableEq, Repr

namespace OrchestratorAdapter

/-- Marker prepended by the default transformer to the first message. -/
def debugMarker : String := "[DEBUG] "

/-- Value returned by OrchestratorAdapter.processPrompt: when the
messages array is non-empty and its first element has truthy (non-empty)
content, the first content is overwritten with the marker-tagged copy;
otherwise the array is returned as is. -/
def processPrompt (messages : List Message) (_meta : Meta) : List Message :=
  match messages with
  | [] => []
  | m :: rest =>
    if m.content = "" then m :: rest
    else { m with content := debugMarker ++ m.content } :: rest

/-- OrchestratorAdapter.processResponse returns its input chunk
unchanged (it only logs the exchange). -/
def processResponse (chunk : α) (_meta : Meta) : α := chunk

/-- A JavaScript heap mapping array references to array contents; used
to state in-place mutation of the messages array. -/
def Heap : Type := Nat → List Message

/-- processPrompt as it acts on the JS heap: the array cell named by the
reference is overwritten with the transformed contents, and the very
same reference is returned. -/
def processPromptOnHeap (h : Heap) (r : Nat) (meta : Meta) : Heap × Nat :=
  (fun r2 => if r2 = r then processPrompt (h r2) meta else h r2, r)

/-- Outcome of one synchronous filesystem call. -/
inductive FsResult where
  | ok
  | fsError (msg : String)
deriving DecidableEq, Repr

/-- The filesystem as seen by one logRequest call: whether the log
directory already exists, and the outcomes mkdirSync and appendFileSync
would have. -/
structure FsEnv where
  dirExists : Bool
  mkdirResult : FsResult
  appendResult : FsResult
deriving DecidableEq, Repr

/-- OrchestratorAdapter.logRequest: ensures the log directory exists
(creating it when missing) and appends one line; it has no try/catch and
no writability check, so a failing mkdirSync or appendFileSync
propagates as an exception. -/
def logRequest (env : FsEnv) : Except String Unit :=
  match (if env.dirExists then FsResult.ok else env.mkdirResult) with
  | .fsError e => .error e
  | .ok =>
    match env.appendResult with
    | .fsError e => .error e
    | .ok => .ok ()

/-- The full processPrompt call: logRequest runs first; if it throws the
exception propagates, otherwise the transformed messages are returned. -/
def processPromptRun (env : FsEnv) (messages : List Message) (meta : Meta) :
    Except String (List Message) :=
  match logRequest env with
  | .error e => .error e
  | .ok _ => .ok (processPrompt messages meta)

end OrchestratorAdapter

/-- A chat-completion request body: model, messages, stream flag, and
the other fields that the object spread carries through verbatim. -/
structure RequestBody where
  model : String
  messages : List Message
  stream : Bool
  extra : List (String × String)
deriving DecidableEq, Repr

/-- What the chat-completions handler does with a request before any
upstream traffic: either it forwards a (possibly rewritten) body
upstream, or it answers the caller with an HTTP error. -/
inductive PromptPhaseResult where
  | forwarded (body : RequestBody)
  | httpError (status : Nat) (text : String)
deriving DecidableEq, Repr

/-- Body of the 500 response produced by the handler catch-all. -/
def internalServerError : String := "Internal Server Error"

/-- The prompt phase of app.post /v1/chat/completions: the transformer
runs on the messages; on success the spread rebuilds the body with the
processed messages and it is forwarded; an exception reaches the
handler catch-all, which answers 500 and forwards nothing. -/
def handlerPromptPhase (body : RequestBody)
    (tr : List Message → Except String (List Message)) : PromptPhaseResult :=
  match tr body.messages with
  | .ok pm => .forwarded { body with messages := pm }
  | .error _ => .httpError 500 internalServerError

/-- The literal completion marker of the upstream SSE stream. -/
def sentinel : String := "[DONE]"

/-- Client-visible state of the caller-facing SSE response: the payload
frames written so far and whether res.end has run. -/
structure RelayState where
  frames : List String
  ended : Bool
deriving DecidableEq, Repr

/-- The createParser callback for one upstream event: events with empty
data are skipped; otherwise the payload is passed through the
transformer, written as a frame, and the response is ended when the
processed payload equals the completion marker. A write after end is
not received by the client. -/
def feedEvent (tr : String → String) (st : RelayState) (e : String) : RelayState :=
  if st.ended then st
  else if e = "" then st
  else
    let p := tr e
    { frames := st.frames ++ [p], ended := p = sentinel }

/-- The whole streaming relay: every upstream event is fed to the
parser callback in order, and the upstream end event closes the
response if it is still open. -/
def relayStream (tr : String → String) (events : List String) : RelayState :=
  let st := events.foldl (feedEvent tr) ⟨[], false⟩
  { st with ended := true }

namespace ProxyManager

/-- Abstract outcome of one HTTP health probe. -/
inductive ProbeOutcome where
  | ok
  | httpFail (status : Nat)
  | netError
  | timedOut
deriving DecidableEq, Repr

/-- Mutable fields of a ProxyManager instance, plus the set of child
processes spawned by it and not yet terminated. -/
structure ManagerState where
  proxyPort : Option Nat
  proxyProcess : Option Nat
  healthCheckActive : Bool
  isStopped : Bool
  liveChildren : List Nat
deriving DecidableEq, Repr

/-- Field values of a freshly constructed ProxyManager. -/
def initialState : ManagerState :=
  { proxyPort := none, proxyProcess := none, healthCheckActive := false,
    isStopped := false, liveChildren := [] }

/-- ProxyManager.isProxyAvailable: with no port assigned it returns
false immediately; otherwise it fetches the ping route and returns
whether the response was ok. The second component records whether a
network call was made. -/
def isProxyAvailable (port : Option Nat) (probe : ProbeOutcome) : Bool × Bool :=
  match port with
  | none => (false, false)
  | some _ =>
    match probe with
    | .ok => (true, true)
    | _ => (false, true)

/-- ProxyManager.stopProxy: the health-check interval is always
cleared; when a process handle is attached, stopRequested is set, the
child is killed and the handle and port are cleared. -/
def stopProxy (s : ManagerState) : ManagerState :=
  let s1 := { s with healthCheckActive := false }
  match s1.proxyProcess with
  | some pid =>
    { s1 with isStopped := true
              liveChildren := s1.liveChildren.erase pid
              proxyProcess := none
              proxyPort := none }
  | none => s1

/-- The unconditional synchronous prefix of ProxyManager.startProxy: a
new child is spawned and the handle overwritten with no check that one
is already attached, the port is recorded, stopRequested is reset and
the health-check interval is (re)armed. -/
def spawnChild (s : ManagerState) (port pid : Nat) : ManagerState :=
  { s with proxyProcess := some pid
           liveChildren := s.liveChildren ++ [pid]
           proxyPort := some port
           isStopped := false
           healthCheckActive := true }

/-- ProxyManager.startProxy: spawn, then one availability probe after
the settle delay; on probe failure stopProxy runs and false is
returned, otherwise true. -/
def startProxy (s : ManagerState) (port pid : Nat) (probe : ProbeOutcome) :
    ManagerState × Bool :=
  let s1 := spawnChild s port pid
  if (isProxyAvailable s1.proxyPort probe).1 then (s1, true)
  else (stopProxy s1, false)

/-- Asynchronous callbacks that can fire on the supervisor after the
synchronous code returns: the close handler of a child process, and one
tick of the health-check interval. -/
inductive SupervisorEvent where
  | childExit (pid : Nat)
  | healthTick (probe : ProbeOutcome)
deriving DecidableEq, Repr

/-- One callback firing. The returned flag says whether the callback
triggered an automatic restart: the close handler restarts when
stopRequested is false; the interval tick restarts when it is armed, a
port is assigned, the probe failed and stopRequested is false. -/
def stepEvent (s : ManagerState) : SupervisorEvent → ManagerState × Bool
  | .childExit pid =>
    ({ s with proxyProcess := none
              proxyPort := none
              liveChildren := s.liveChildren.erase pid },
     !s.isStopped)
  | .healthTick probe =>
    (s, s.healthCheckActive && s.proxyPort.isSome &&
        !(isProxyAvailable s.proxyPort probe).1 && !s.isStopped)

/-- Run a sequence of callbacks; the flag records whether any of them
triggered an automatic restart. -/
def runEvents (s : ManagerState) : List SupervisorEvent → ManagerState × Bool
  | [] => (s, false)
  | ev :: rest =>
    let r := stepEvent s ev
    let rr := runEvents r.1 rest
    (rr.1, r.2 || rr.2)

/-- The scanned port range 7001..7010 of findFreeProxyPort. -/
def portRange : List Nat := List.range' 7001 10

/-- ProxyManager.findFreeProxyPort: scan 7001..7010 in order for the
first port on which a listening socket binds; when every port is busy,
fall back to 7001. -/
def findFreeProxyPort (free : Nat → Bool) : Nat :=
  match portRange.find? free with
  | some p => p
  | none => 7001

/-- The option bag handed to one fetch call: method, headers, and the
timeout bound in milliseconds when one is configured (none when the
options carry no timeout and no abort signal). -/
structure FetchOptions where
  method : String
  headers : List (String × String)
  timeoutMs : Option Nat
deriving DecidableEq, Repr

/-- The exact options ProxyManager.isProxyAvailable passes to fetch for
the ping probe: a GET with an Accept header and nothing else — no
timeout and no abort signal is configured. -/
def isProxyAvailableFetchOptions : FetchOptions :=
  { method := "GET", headers := [("Accept", "application/json")], timeoutMs := none }

end ProxyManager

namespace JsonModel

/-- The opening curly bracket character. -/
def lbrace : Char := Char.ofNat 123

/-- The closing curly bracket character. -/
def rbrace : Char := Char.ofNat 125

/-- Lowercase hexadecimal digit for a value below 16. -/
def hexChar (n : Nat) : Char :=
  if n < 10 then Char.ofNat (48 + n) else Char.ofNat (87 + n)

/-- Decimal digit character for a value below 10. -/
def digitChar (n : Nat) : Char := Char.ofNat (48 + n)

/-- Whether a character is a decimal digit. -/
def isDigitChar (c : Char) : Bool := 48 ≤ c.toNat && c.toNat ≤ 57

/-- How JSON.stringify escapes one character inside a string literal:
quote, backslash and the short control escapes get a two-character
escape, other control characters get a six-character unicode escape,
everything else is emitted as is. -/
def escapeChar (c : Char) : List Char :=
  if c = '"' then ['\\', '"']
  else if c = '\\' then ['\\', '\\']
  else if c = '\x08' then ['\\', 'b']
  else if c = '\x09' then ['\\', 't']
  else if c = '\x0a' then ['\\', 'n']
  else if c = '\x0c' then ['\\', 'f']
  else if c = '\x0d' then ['\\', 'r']
  else if c.toNat < 32 then
    '\\' :: 'u' :: '0' :: '0' :: hexChar (c.toNat / 16) :: [hexChar (c.toNat % 16)]
  else [c]

/-- Escape every character of a string body. -/
def escapeList : List Char → List Char
  | [] => []
  | c :: cs => escapeChar c ++ escapeList cs

/-- Decimal digits of a natural number, most significant first. -/
def natToDigits (n : Nat) : List Char :=
  if _h : n < 10 then [digitChar n]
  else natToDigits (n / 10) ++ [digitChar (n % 10)]
decreasing_by exact Nat.div_lt_self (by omega) (by omega)

/-- Decimal rendering of an integer, as JSON.stringify prints it. -/
def encodeInt : Int → List Char
  | .ofNat n => natToDigits n
  | .negSucc m => '-' :: natToDigits (m + 1)

/-- JSON values, with numbers restricted to integers. -/
inductive Json where
  | null
  | bool (b : Bool)
  | num (n : Int)
  | str (s : String)
  | arr (elems : List Json)
  | obj (fields : List (String × Json))

mutual

/-- JSON.stringify: the canonical compact rendering of a value. -/
def encodeJson : Json → List Char
  | .null => "null".data
  | .bool true => "true".data
  | .bool false => "false".data
  | .num i => encodeInt i
  | .str s => '"' :: escapeList s.data ++ ['"']
  | .arr [] => ['[', ']']
  | .arr (e :: es) => '[' :: (encodeElems e es ++ [']'])
  | .obj [] => [lbrace, rbrace]
  | .obj (f :: fs) => lbrace :: (encodeFields f fs ++ [rbrace])
termination_by j => sizeOf j
decreasing_by all_goals (simp_wf <;> omega)

/-- Comma-separated rendering of a non-empty element list. -/
def encodeElems : Json → List Json → List Char
  | e, [] => encodeJson e
  | e, e2 :: es => encodeJson e ++ ',' :: encodeElems e2 es
termination_by e es => 1 + sizeOf e + sizeOf es
decreasing_by all_goals (simp_wf <;> omega)

/-- Rendering of one key-value field. -/
def encodeField : String × Json → List Char
  | (k, v) => '"' :: escapeList k.data ++ ['"'] ++ ':' :: encodeJson v
termination_by f => sizeOf f
decreasing_by all_goals (simp_wf <;> omega)

/-- Comma-separated rendering of a non-empty field list. -/
def encodeFields : String × Json → List (String × Json) → List Char
  | f, [] => encodeField f
  | f, f2 :: fs => encodeField f ++ ',' :: encodeFields f2 fs
termination_by f fs => 1 + sizeOf f + sizeOf fs
decreasing_by all_goals (simp_wf <;> omega)

end

/-- Numeric value of a hexadecimal digit character, if it is one. -/
def parseHex (c : Char) : Option Nat :=
  if 48 ≤ c.toNat ∧ c.toNat ≤ 57 then some (c.toNat - 48)
  else if 97 ≤ c.toNat ∧ c.toNat ≤ 102 then some (c.toNat - 87)
  else none

/-- Parse the body of a JSON string up to and including the closing
quote, undoing the escapes; returns the decoded characters and the
remaining input. -/
def parseStringBody : List Char → Option (List Char × List Char)
  | [] => none
  | c :: cs =>
    if c = '"' then some ([], cs)
    else if c = '\\' then
      match cs with
      | [] => none
      | e :: cs2 =>
        if e = '"' then (parseStringBody cs2).map (fun r => ('"' :: r.1, r.2))
        else if e = '\\' then (parseStringBody cs2).map (fun r => ('\\' :: r.1, r.2))
        else if e = 'b' then (parseStringBody cs2).map (fun r => ('\x08' :: r.1, r.2))
        else if e = 't' then (parseStringBody cs2).map (fun r => ('\x09' :: r.1, r.2))
        else if e = 'n' then (parseStringBody cs2).map (fun r => ('\x0a' :: r.1, r.2))
        else if e = 'f' then (parseStringBody cs2).map (fun r => ('\x0c' :: r.1, r.2))
        else if e = 'r' then (parseStringBody cs2).map (fun r => ('\x0d' :: r.1, r.2))
        else if e = 'u' then
          match cs2 with
          | h1 :: h2 :: h3 :: h4 :: cs3 =>
            match parseHex h1, parseHex h2, parseHex h3, parseHex h4 with
            | some a, some b, some c3, some d =>
              (parseStringBody cs3).map
                (fun r => (Char.ofNat (((a * 16 + b) * 16 + c3) * 16 + d) :: r.1, r.2))
            | _, _, _, _ => none
          | _ => none
        else none
    else (parseStringBody cs).map (fun r => (c :: r.1, r.2))
termination_by cs => cs.length
decreasing_by all_goals simp_wf <;> omega

/-- Whether the input does not begin with a decimal digit. -/
def headNotDigit : List Char → Bool
  | [] => true
  | c :: _ => !isDigitChar c

/-- Consume leading decimal digits, accumulating their value. -/
def parseDigits : List Char → Nat → Nat × List Char
  | [], acc => (acc, [])
  | c :: cs, acc =>
    if isDigitChar c then parseDigits cs (10 * acc + (c.toNat - 48))
    else (acc, c :: cs)

/-- Parse an optionally negated decimal integer. -/
def parseInt (cs : List Char) : Option (Int × List Char) :=
  match cs with
  | [] => none
  | c :: rest =>
    if c = '-' then
      match rest with
      | [] => none
      | c2 :: _ =>
        if isDigitChar c2 then
          let r := parseDigits rest 0
          some (-(r.1 : Int), r.2)
        else none
    else if isDigitChar c then
      let r := parseDigits (c :: rest) 0
      some ((r.1 : Int), r.2)
    else none

/-- Which syntactic class the fueled parser is consuming: a value, the
tail of a non-empty element list, or the tail of a non-empty field
list (element and field tails include their closing bracket, and are
returned wrapped in arr and obj respectively). -/
inductive ParseMode where
  | value
  | elements
  | fieldList
deriving DecidableEq, Repr

/-- Fueled JSON parser for the compact rendering. -/
def parseCore : Nat → ParseMode → List Char → Option (Json × List Char)
  | 0, _, _ => none
  | fuel + 1, .value, cs =>
    match cs with
    | [] => none
    | c :: cs1 =>
      if c = '"' then
        match parseStringBody cs1 with
        | some (sc, rest) => some (.str (String.mk sc), rest)
        | none => none
      else if c = 'n' then
        match cs1 with
        | 'u' :: 'l' :: 'l' :: rest => some (.null, rest)
        | _ => none
      else if c = 't' then
        match cs1 with
        | 'r' :: 'u' :: 'e' :: rest => some (.bool true, rest)
        | _ => none
      else if c = 'f' then
        match cs1 with
        | 'a' :: 'l' :: 's' :: 'e' :: rest => some (.bool false, rest)
        | _ => none
      else if c = '[' then
        match cs1 with
        | ']' :: rest => some (.arr [], rest)
        | _ => parseCore fuel .elements cs1
      else if c = lbrace then
        match cs1 with
        | [] => none
        | c2 :: rest2 =>
          if c2 = rbrace then some (.obj [], rest2)
          else parseCore fuel .fieldList cs1
      else if c = '-' ∨ isDigitChar c then
        match parseInt (c :: cs1) with
        | some (i, rest) => some (.num i, rest)
        | none => none
      else none
  | fuel + 1, .elements, cs =>
    match parseCore fuel .value cs with
    | none => none
    | some (e, rest) =>
      match rest with
      | ',' :: rest2 =>
        match parseCore fuel .elements rest2 with
        | some (.arr es, rest3) => some (.arr (e :: es), rest3)
        | _ => none
      | ']' :: rest2 => some (.arr [e], rest2)
      | _ => none
  | fuel + 1, .fieldList, cs =>
    match cs with
    | [] => none
    | c :: cs1 =>
      if c = '"' then
        match parseStringBody cs1 with
        | none => none
        | some (key, rest) =>
          match rest with
          | ':' :: rest2 =>
            match parseCore fuel .value rest2 with
            | none => none
            | some (v, rest3) =>
              match rest3 with
              | [] => none
              | ',' :: rest4 =>
                match parseCore fuel .fieldList rest4 with
                | some (.obj fs, rest5) =>
                  some (.obj ((String.mk key, v) :: fs), rest5)
                | _ => none
              | c4 :: rest4 =>
                if c4 = rbrace then some (.obj [(String.mk key, v)], rest4) else none
          | _ => none
      else none

/-- Parse one JSON value. -/
def parseJson (fuel : Nat) (cs : List Char) : Option (Json × List Char) :=
  parseCore fuel .value cs

/-- A calendar instant as the JS Date getters expose it (month here
already 1-based, as the log filename and ISO rendering use it). -/
structure DateTime where
  year : Nat
  month : Nat
  day : Nat
  hour : Nat
  minute : Nat
  second : Nat
  ms : Nat
deriving DecidableEq, Repr

/-- Field ranges a JS Date always satisfies. -/
def DateTime.WF (d : DateTime) : Prop :=
  d.year ≤ 9999 ∧ 1 ≤ d.month ∧ d.month ≤ 12 ∧ 1 ≤ d.day ∧ d.day ≤ 31 ∧
  d.hour ≤ 23 ∧ d.minute ≤ 59 ∧ d.second ≤ 59 ∧ d.ms ≤ 999

/-- Zero-pad a number to the given width, as Date.toISOString does. -/
def padDigits (width n : Nat) : List Char :=
  List.replicate (width - (natToDigits n).length) '0' ++ natToDigits n

/-- Date.toISOString: the fixed 24-character UTC rendering. -/
def toISOString (d : DateTime) : String :=
  String.mk (padDigits 4 d.year ++ '-' :: padDigits 2 d.month ++ '-' :: padDigits 2 d.day
    ++ 'T' :: padDigits 2 d.hour ++ ':' :: padDigits 2 d.minute ++ ':' :: padDigits 2 d.second
    ++ '.' :: padDigits 3 d.ms ++ ['Z'])

/-- Whether a string is a well-formed ISO-8601 UTC timestamp of the
shape Date.toISOString produces, with in-range date and time fields, so
that Date parsing accepts it. -/
def isValidTimestamp (s : String) : Bool :=
  match s.data with
  | [y1, y2, y3, y4, s1, mo1, mo2, s2, d1, d2, s3, h1, h2, s4, mi1, mi2, s5,
     se1, se2, s6, f1, f2, f3, s7] =>
    isDigitChar y1 && isDigitChar y2 && isDigitChar y3 && isDigitChar y4 &&
    (s1 == '-') && isDigitChar mo1 && isDigitChar mo2 &&
    (s2 == '-') && isDigitChar d1 && isDigitChar d2 &&
    (s3 == 'T') && isDigitChar h1 && isDigitChar h2 &&
    (s4 == ':') && isDigitChar mi1 && isDigitChar mi2 &&
    (s5 == ':') && isDigitChar se1 && isDigitChar se2 &&
    (s6 == '.') && isDigitChar f1 && isDigitChar f2 && isDigitChar f3 &&
    (s7 == 'Z') &&
    decide (1 ≤ (mo1.toNat - 48) * 10 + (mo2.toNat - 48) ∧
      (mo1.toNat - 48) * 10 + (mo2.toNat - 48) ≤ 12) &&
    decide (1 ≤ (d1.toNat - 48) * 10 + (d2.toNat - 48) ∧
      (d1.toNat - 48) * 10 + (d2.toNat - 48) ≤ 31) &&
    decide ((h1.toNat - 48) * 10 + (h2.toNat - 48) ≤ 23) &&
    decide ((mi1.toNat - 48) * 10 + (mi2.toNat - 48) ≤ 59) &&
    decide ((se1.toNat - 48) * 10 + (se2.toNat - 48) ≤ 59)
  | _ => false

/-- The JSON object logRequest serializes: ts, phase, data. -/
def logEntryJson (ts phase : String) (data : Json) : Json :=
  .obj [("ts", .str ts), ("phase", .str phase), ("data", data)]

/-- The single line of characters one record call appends (before the
trailing newline). -/
def logLine (ts phase : String) (data : Json) : List Char :=
  encodeJson (logEntryJson ts phase data)

/-- appendFileSync of one record: the serialized entry plus a newline,
appended to the current content of the day file. -/
def appendRecord (file : List Char) (ts phase : String) (data : Json) : List Char :=
  file ++ logLine ts phase data ++ ['\x0a']

end JsonModel

/-! Helper lemmas. -/

/-- Prepending the debug marker always changes a string. -/
theorem debugMarker_append_ne (c : String) : OrchestratorAdapter.debugMarker ++ c ≠ c := by
  intro he
  have hl := congrArg String.length he
  rw [String.length_append] at hl
  have h8 : OrchestratorAdapter.debugMarker.length = 8 := rfl
  omega

/-- Supervisor callbacks never change the stopRequested flag. -/
theorem stepEvent_isStopped (s : ProxyManager.ManagerState) (ev : ProxyManager.SupervisorEvent) :
    (ProxyManager.stepEvent s ev).1.isStopped = s.isStopped := by
  cases ev <;> rfl

/-- Once stopRequested is set, no callback sequence triggers a restart. -/
theorem runEvents_no_restart (evs : List ProxyManager.SupervisorEvent)
    (s : ProxyManager.ManagerState) (h : s.isStopped = true) :
    (ProxyManager.runEvents s evs).2 = false := by
  induction evs generalizing s with
  | nil => rfl
  | cons ev rest ih =>
    have h1 : (ProxyManager.stepEvent s ev).2 = false := by
      cases ev with
      | childExit pid => simp [ProxyManager.stepEvent, h]
      | healthTick probe => simp [ProxyManager.stepEvent, h]
    have h2 : (ProxyManager.stepEvent s ev).1.isStopped = true := by
      rw [stepEvent_isStopped]; exact h
    simp only [ProxyManager.runEvents, h1, ih _ h2, Bool.or_self]

/-- find? on a list sorted by ≤ returns an element not larger than any
element satisfying the predicate. -/
theorem find?_le_of_pairwise {l : List Nat} {f : Nat → Bool} {x p : Nat}
    (hs : l.Pairwise (· ≤ ·)) (hf : l.find? f = some x) (hp : p ∈ l) (hfp : f p = true) :
    x ≤ p := by
  induction l with
  | nil => simp at hf
  | cons a t ih =>
    by_cases hfa : f a = true
    · rw [List.find?_cons_of_pos _ hfa] at hf
      cases hf
      rcases List.mem_cons.mp hp with hpa | hpt
      · omega
      · exact (List.pairwise_cons.mp hs).1 p hpt
    · rw [List.find?_cons_of_neg _ (by simp [hfa])] at hf
      rcases List.mem_cons.mp hp with hpa | hpt
      · rw [← hpa] at hfa; exact absurd hfp hfa
      · exact ih (List.pairwise_cons.mp hs).2 hf hpt

/-- The identity transformer leaves a relay fold with no sentinel and no
empty event in the open state with all frames appended. -/
theorem relay_foldl_no_sentinel (meta : Meta) (es : List String) (acc : List String)
    (h1 : sentinel ∉ es) (h2 : "" ∉ es) :
    es.foldl (feedEvent (fun e => OrchestratorAdapter.processResponse e meta)) ⟨acc, false⟩ =
      ⟨acc ++ es, false⟩ := by
  induction es generalizing acc with
  | nil => simp
  | cons e rest ih =>
    have he : e ≠ "" := fun h => h2 (by rw [← h]; exact List.mem_cons_self e rest)
    have hes : e ≠ sentinel := fun h => h1 (by rw [← h]; exact List.mem_cons_self e rest)
    have hfeed : feedEvent (fun e => OrchestratorAdapter.processResponse e meta) ⟨acc, false⟩ e =
        ⟨acc ++ [e], false⟩ := by
      simp [feedEvent, he, OrchestratorAdapter.processResponse, hes]
    rw [List.foldl_cons, hfeed,
      ih (acc ++ [e]) (fun hh => h1 (List.mem_cons_of_mem _ hh))
        (fun hh => h2 (List.mem_cons_of_mem _ hh))]
    simp

/-! Claim theorems. -/

/-- C1: for a streaming chat-completion with a successful upstream SSE
stream (non-empty payloads, the completion marker appearing only as the
final event), the frames written to the client are exactly the upstream
payloads in order, each passed through the deployed processResponse,
the completion marker is received exactly once and as the last frame,
and the caller-facing stream is closed afterwards. -/
theorem streaming_relay_order_and_sentinel (meta : Meta) (es : List String)
    (h1 : sentinel ∉ es) (h2 : "" ∉ es) :
    (relayStream (fun e => OrchestratorAdapter.processResponse e meta) (es ++ [sentinel])).frames =
      es.map (fun e => OrchestratorAdapter.processResponse e meta) ++ [sentinel] ∧
    ((relayStream (fun e => OrchestratorAdapter.processResponse e meta)
      (es ++ [sentinel])).frames).count sentinel = 1 ∧
    ((relayStream (fun e => OrchestratorAdapter.processResponse e meta)
      (es ++ [sentinel])).frames).getLast? = some sentinel ∧
    (relayStream (fun e => OrchestratorAdapter.processResponse e meta)
      (es ++ [sentinel])).ended = true := by
  have hfold := relay_foldl_no_sentinel meta es [] h1 h2
  have hframes : (relayStream (fun e => OrchestratorAdapter.processResponse e meta)
      (es ++ [sentinel])).frames = es ++ [sentinel] := by
    simp only [relayStream, List.foldl_append, hfold, List.foldl_cons, List.foldl_nil]
    simp [feedEvent, sentinel, OrchestratorAdapter.processResponse]
  refine ⟨?_, ?_, ?_, rfl⟩
  · rw [hframes]
    simp [OrchestratorAdapter.processResponse]
  · rw [hframes, List.count_append]
    rw [List.count_eq_zero.mpr h1]
    rfl
  · rw [hframes, List.getLast?_concat]

/-- C1 witness: a two-event stream followed by the completion marker. -/
theorem streaming_relay_order_and_sentinel_witness :
    sentinel ∉ ["alpha", "beta"] ∧ "" ∉ ["alpha", "beta"] ∧
    ((relayStream (fun e => OrchestratorAdapter.processResponse e ⟨"gpt-4", "ip", "p", "POST"⟩)
        (["alpha", "beta"] ++ [sentinel])).frames =
      ["alpha", "beta"].map
        (fun e => OrchestratorAdapter.processResponse e ⟨"gpt-4", "ip", "p", "POST"⟩) ++
        [sentinel] ∧
    ((relayStream (fun e => OrchestratorAdapter.processResponse e ⟨"gpt-4", "ip", "p", "POST"⟩)
      (["alpha", "beta"] ++ [sentinel])).frames).count sentinel = 1 ∧
    ((relayStream (fun e => OrchestratorAdapter.processResponse e ⟨"gpt-4", "ip", "p", "POST"⟩)
      (["alpha", "beta"] ++ [sentinel])).frames).getLast? = some sentinel ∧
    (relayStream (fun e => OrchestratorAdapter.processResponse e ⟨"gpt-4", "ip", "p", "POST"⟩)
      (["alpha", "beta"] ++ [sentinel])).ended = true) :=
  ⟨by decide, by decide,
    streaming_relay_order_and_sentinel ⟨"gpt-4", "ip", "p", "POST"⟩ ["alpha", "beta"]
      (by decide) (by decide)⟩

/-- C2 counterexample: with a transformer whose processPrompt throws,
the handler answers 500 and does not forward the original body, against
the claim that the exception is caught and the original body forwarded. -/
theorem processPrompt_throw_cex :
    handlerPromptPhase ⟨"gpt-4", [⟨"user", "hi"⟩], true, []⟩
        (fun _ => .error "boom") = .httpError 500 internalServerError ∧
    handlerPromptPhase ⟨"gpt-4", [⟨"user", "hi"⟩], true, []⟩
        (fun _ => .error "boom") ≠
      .forwarded ⟨"gpt-4", [⟨"user", "hi"⟩], true, []⟩ := by
  constructor
  · rfl
  · decide

/-- C2 amended: when the transformer's processPrompt throws, the
handler catch-all answers HTTP 500 Internal Server Error to the caller
and nothing is forwarded upstream. -/
theorem processPrompt_throw_returns_500 (body : RequestBody)
    (tr : List Message → Except String (List Message)) (e : String)
    (h : tr body.messages = .error e) :
    handlerPromptPhase body tr = .httpError 500 internalServerError := by
  unfold handlerPromptPhase
  rw [h]

/-- C2 witness. -/
theorem processPrompt_throw_returns_500_witness :
    (fun _ : List Message => (Except.error "boom" : Except String (List Message)))
        (RequestBody.messages ⟨"gpt-4", [⟨"user", "hi"⟩], false, []⟩) = .error "boom" ∧
    handlerPromptPhase ⟨"gpt-4", [⟨"user", "hi"⟩], false, []⟩ (fun _ => .error "boom") =
      .httpError 500 internalServerError :=
  ⟨rfl, processPrompt_throw_returns_500 ⟨"gpt-4", [⟨"user", "hi"⟩], false, []⟩
    (fun _ => .error "boom") "boom" rfl⟩

/-- C3 counterexample: the default processPrompt is not a pass-through;
on a non-empty messages array it rewrites the first content. -/
theorem default_processPrompt_cex :
    OrchestratorAdapter.processPrompt [⟨"user", "hi"⟩] ⟨"gpt-4", "ip", "p", "POST"⟩ ≠
      [⟨"user", "hi"⟩] := by
  decide

/-- C3 amended: the default processResponse returns its input
unchanged, but the default processPrompt prefixes the first message
content with the debug marker whenever the messages array is non-empty
and the first content is non-empty, so its result differs from its
input there; an empty array is returned unchanged. -/
theorem default_transformer_semantics (meta : Meta) (m : Message) (rest : List Message)
    (chunk : String) (h : m.content ≠ "") :
    OrchestratorAdapter.processResponse chunk meta = chunk ∧
    OrchestratorAdapter.processPrompt [] meta = [] ∧
    OrchestratorAdapter.processPrompt (m :: rest) meta =
      { m with content := OrchestratorAdapter.debugMarker ++ m.content } :: rest ∧
    OrchestratorAdapter.processPrompt (m :: rest) meta ≠ m :: rest := by
  have h3 : OrchestratorAdapter.processPrompt (m :: rest) meta =
      { m with content := OrchestratorAdapter.debugMarker ++ m.content } :: rest := by
    simp [OrchestratorAdapter.processPrompt, h]
  refine ⟨rfl, rfl, h3, ?_⟩
  rw [h3]
  intro hEq
  have hm := (List.cons.injEq _ _ _ _ ▸ hEq).1
  have hc := congrArg Message.content hm
  exact debugMarker_append_ne m.content hc

/-- C3 witness. -/
theorem default_transformer_semantics_witness :
    Message.content ⟨"user", "hi"⟩ ≠ "" ∧
    (OrchestratorAdapter.processResponse "chunk" ⟨"gpt-4", "ip", "p", "POST"⟩ = "chunk" ∧
    OrchestratorAdapter.processPrompt [] ⟨"gpt-4", "ip", "p", "POST"⟩ = [] ∧
    OrchestratorAdapter.processPrompt [⟨"user", "hi"⟩] ⟨"gpt-4", "ip", "p", "POST"⟩ =
      [⟨"user", OrchestratorAdapter.debugMarker ++ "hi"⟩] ∧
    OrchestratorAdapter.processPrompt [⟨"user", "hi"⟩] ⟨"gpt-4", "ip", "p", "POST"⟩ ≠
      [⟨"user", "hi"⟩]) :=
  ⟨by decide, default_transformer_semantics ⟨"gpt-4", "ip", "p", "POST"⟩ ⟨"user", "hi"⟩ []
    "chunk" (by decide)⟩

/-- C4 counterexample: after a successful start has attached the handle
of child 1, a second startProxy call spawns child 2 anyway and
overwrites the handle, leaving two live children. -/
theorem startProxy_spawns_while_attached_cex :
    (ProxyManager.startProxy ProxyManager.initialState 7001 1 .ok).1.proxyProcess = some 1 ∧
    (ProxyManager.startProxy
      (ProxyManager.startProxy ProxyManager.initialState 7001 1 .ok).1 7002 2
        .ok).1.liveChildren = [1, 2] ∧
    (ProxyManager.startProxy
      (ProxyManager.startProxy ProxyManager.initialState 7001 1 .ok).1 7002 2
        .ok).1.proxyProcess = some 2 := by
  decide

/-- C4 amended: startProxy performs no attached-handle check: called
while a handle is attached and with a passing startup probe, it spawns
a new child, reports success, and overwrites the handle, while the
previously attached child stays in the live set. -/
theorem startProxy_no_attached_check (s : ProxyManager.ManagerState) (p port pid : Nat)
    (h : s.proxyProcess = some p) (hmem : p ∈ s.liveChildren) :
    (ProxyManager.startProxy s port pid .ok).1.proxyProcess = some pid ∧
    (ProxyManager.startProxy s port pid .ok).2 = true ∧
    p ∈ (ProxyManager.startProxy s port pid .ok).1.liveChildren ∧
    pid ∈ (ProxyManager.startProxy s port pid .ok).1.liveChildren := by
  refine ⟨rfl, rfl, ?_, ?_⟩
  · exact List.mem_append_left _ hmem
  · exact List.mem_append_right _ (List.mem_singleton.mpr rfl)

/-- C4 witness. -/
theorem startProxy_no_attached_check_witness :
    ProxyManager.ManagerState.proxyProcess ⟨some 7001, some 1, true, false, [1]⟩ = some 1 ∧
    1 ∈ ProxyManager.ManagerState.liveChildren ⟨some 7001, some 1, true, false, [1]⟩ ∧
    ((ProxyManager.startProxy ⟨some 7001, some 1, true, false, [1]⟩ 7002 2
        .ok).1.proxyProcess = some 2 ∧
    (ProxyManager.startProxy ⟨some 7001, some 1, true, false, [1]⟩ 7002 2 .ok).2 = true ∧
    1 ∈ (ProxyManager.startProxy ⟨some 7001, some 1, true, false, [1]⟩ 7002 2
        .ok).1.liveChildren ∧
    2 ∈ (ProxyManager.startProxy ⟨some 7001, some 1, true, false, [1]⟩ 7002 2
        .ok).1.liveChildren) :=
  ⟨by decide, by decide,
    startProxy_no_attached_check ⟨some 7001, some 1, true, false, [1]⟩ 1 7002 2
      (by decide) (by decide)⟩

/-- C5: stopping a running supervisor cancels the health-check timer,
clears the handle and the port (so isProxyAvailable answers false with
no network call), records the deliberate stop, and afterwards no
sequence of close-handler or health-tick callbacks ever triggers an
automatic restart. -/
theorem stopProxy_blocks_restart (s : ProxyManager.ManagerState) (pid : Nat)
    (probe : ProxyManager.ProbeOutcome) (evs : List ProxyManager.SupervisorEvent)
    (h : s.proxyProcess = some pid) :
    ProxyManager.isProxyAvailable (ProxyManager.stopProxy s).proxyPort probe = (false, false) ∧
    (ProxyManager.stopProxy s).healthCheckActive = false ∧
    (ProxyManager.stopProxy s).proxyProcess = none ∧
    (ProxyManager.stopProxy s).proxyPort = none ∧
    (ProxyManager.stopProxy s).isStopped = true ∧
    (ProxyManager.runEvents (ProxyManager.stopProxy s) evs).2 = false := by
  have hstop : ProxyManager.stopProxy s =
      { proxyPort := none, proxyProcess := none, healthCheckActive := false,
        isStopped := true, liveChildren := s.liveChildren.erase pid } := by
    simp [ProxyManager.stopProxy, h]
  rw [hstop]
  exact ⟨rfl, rfl, rfl, rfl, rfl, runEvents_no_restart evs _ rfl⟩

/-- C5 witness. -/
theorem stopProxy_blocks_restart_witness :
    ProxyManager.ManagerState.proxyProcess ⟨some 7001, some 1, true, false, [1]⟩ = some 1 ∧
    (ProxyManager.isProxyAvailable
        (ProxyManager.stopProxy ⟨some 7001, some 1, true, false, [1]⟩).proxyPort
        .ok = (false, false) ∧
    (ProxyManager.stopProxy ⟨some 7001, some 1, true, false, [1]⟩).healthCheckActive = false ∧
    (ProxyManager.stopProxy ⟨some 7001, some 1, true, false, [1]⟩).proxyProcess = none ∧
    (ProxyManager.stopProxy ⟨some 7001, some 1, true, false, [1]⟩).proxyPort = none ∧
    (ProxyManager.stopProxy ⟨some 7001, some 1, true, false, [1]⟩).isStopped = true ∧
    (ProxyManager.runEvents (ProxyManager.stopProxy ⟨some 7001, some 1, true, false, [1]⟩)
      [.childExit 1, .healthTick .netError]).2 = false) :=
  ⟨by decide,
    stopProxy_blocks_restart ⟨some 7001, some 1, true, false, [1]⟩ 1 .ok
      [.childExit 1, .healthTick .netError] (by decide)⟩

/-- C6: findFreeProxyPort returns a port of the scanned range on which
a socket binds whenever one exists, and never a later one than any
bindable port (ascending first-fit); when every port of the range is
busy it falls back to 7001. -/
theorem findFreeProxyPort_first_free (free g : Nat → Bool) (p : Nat)
    (hp : p ∈ ProxyManager.portRange) (hfree : free p = true)
    (hg : ∀ q ∈ ProxyManager.portRange, g q = false) :
    ProxyManager.findFreeProxyPort free ∈ ProxyManager.portRange ∧
    free (ProxyManager.findFreeProxyPort free) = true ∧
    ProxyManager.findFreeProxyPort free ≤ p ∧
    ProxyManager.findFreeProxyPort g = 7001 := by
  have hpair : ProxyManager.portRange.Pairwise (· ≤ ·) := by decide
  have hgnone : ProxyManager.portRange.find? g = none :=
    List.find?_eq_none.mpr (fun q hq => by simp [hg q hq])
  cases hfind : ProxyManager.portRange.find? free with
  | none => exact absurd hfree (by simpa using List.find?_eq_none.mp hfind p hp)
  | some x =>
    have hres : ProxyManager.findFreeProxyPort free = x := by
      simp [ProxyManager.findFreeProxyPort, hfind]
    have hgres : ProxyManager.findFreeProxyPort g = 7001 := by
      simp [ProxyManager.findFreeProxyPort, hgnone]
    rw [hres, hgres]
    exact ⟨List.mem_of_find?_eq_some hfind, List.find?_some hfind,
      find?_le_of_pairwise hpair hfind hp hfree, rfl⟩

/-- C6 witness: 7001 through 7003 busy, 7004 free. -/
theorem findFreeProxyPort_first_free_witness :
    7004 ∈ ProxyManager.portRange ∧ (fun q => decide (7004 ≤ q)) 7004 = true ∧
    (∀ q ∈ ProxyManager.portRange, (fun _ => false) q = false) ∧
    (ProxyManager.findFreeProxyPort (fun q => decide (7004 ≤ q)) ∈ ProxyManager.portRange ∧
    (fun q => decide (7004 ≤ q)) (ProxyManager.findFreeProxyPort
      (fun q => decide (7004 ≤ q))) = true ∧
    ProxyManager.findFreeProxyPort (fun q => decide (7004 ≤ q)) ≤ 7004 ∧
    ProxyManager.findFreeProxyPort (fun _ => false) = 7001) :=
  ⟨by decide, by decide, by decide,
    findFreeProxyPort_first_free (fun q => decide (7004 ≤ q)) (fun _ => false) 7004
      (by decide) (by decide) (by decide)⟩

/-- C7 counterexample: the fetch options of the cited isProxyAvailable
configure no timeout at all, so the probe call carries no bounded
timeout and in particular no five-second default. -/
theorem isProxyAvailable_no_timeout_cex :
    ProxyManager.isProxyAvailableFetchOptions.timeoutMs = none ∧
    ProxyManager.isProxyAvailableFetchOptions.timeoutMs ≠ some 5000 := by
  decide

/-- C7 amended: isProxyAvailable answers true only when a port is
assigned and the probe came back ok; with no port assigned it answers
false without any network call; the probe fetch itself configures no
timeout, relying on the platform defaults. -/
theorem isProxyAvailable_spec (port : Option Nat)
    (probe probe2 : ProxyManager.ProbeOutcome)
    (h : (ProxyManager.isProxyAvailable port probe).1 = true) :
    port.isSome = true ∧ probe = .ok ∧
    ProxyManager.isProxyAvailable none probe2 = (false, false) ∧
    ProxyManager.isProxyAvailableFetchOptions.timeoutMs = none := by
  cases port with
  | none => exact absurd h (by simp [ProxyManager.isProxyAvailable])
  | some q =>
    cases probe with
    | ok => exact ⟨rfl, rfl, rfl, rfl⟩
    | httpFail st => exact absurd h (by simp [ProxyManager.isProxyAvailable])
    | netError => exact absurd h (by simp [ProxyManager.isProxyAvailable])
    | timedOut => exact absurd h (by simp [ProxyManager.isProxyAvailable])

/-- C7 witness. -/
theorem isProxyAvailable_spec_witness :
    (ProxyManager.isProxyAvailable (some 7001) .ok).1 = true ∧
    ((some 7001 : Option Nat).isSome = true ∧ ProxyManager.ProbeOutcome.ok = .ok ∧
    ProxyManager.isProxyAvailable none .netError = (false, false) ∧
    ProxyManager.isProxyAvailableFetchOptions.timeoutMs = none) :=
  ⟨by decide, isProxyAvailable_spec (some 7001) .ok .netError (by decide)⟩

/-- C8 counterexample: with the log directory present but the append
failing, the logging failure propagates out of processPrompt and the
handler aborts the request with HTTP 500, against the claim that a
logging failure degrades to a console message only. -/
theorem logging_failure_aborts_cex :
    handlerPromptPhase ⟨"gpt-4", [⟨"user", "hello"⟩], true, []⟩
        (fun ms => OrchestratorAdapter.processPromptRun ⟨true, .ok, .fsError "EACCES"⟩ ms
          ⟨"gpt-4", "ip", "p", "POST"⟩) =
      .httpError 500 internalServerError := by
  decide

/-- C8 amended: the cited logRequest checks only that the log directory
exists (creating it when missing), verifies no writability and catches
nothing, so any mkdirSync or appendFileSync failure propagates and the
chat-completions handler aborts the request in progress with HTTP 500. -/
theorem logging_failure_propagates (env : OrchestratorAdapter.FsEnv) (body : RequestBody)
    (meta : Meta) (e : String) (h : OrchestratorAdapter.logRequest env = .error e) :
    handlerPromptPhase body
      (fun ms => OrchestratorAdapter.processPromptRun env ms meta) =
      .httpError 500 internalServerError := by
  simp [handlerPromptPhase, OrchestratorAdapter.processPromptRun, h]

/-- C8 witness. -/
theorem logging_failure_propagates_witness :
    OrchestratorAdapter.logRequest ⟨false, .fsError "EPERM", .ok⟩ = .error "EPERM" ∧
    handlerPromptPhase ⟨"gpt-4", [⟨"user", "hello"⟩], true, []⟩
      (fun ms => OrchestratorAdapter.processPromptRun ⟨false, .fsError "EPERM", .ok⟩ ms
        ⟨"gpt-4", "ip", "p", "POST"⟩) =
      .httpError 500 internalServerError :=
  ⟨rfl, logging_failure_propagates ⟨false, .fsError "EPERM", .ok⟩
    ⟨"gpt-4", [⟨"user", "hello"⟩], true, []⟩ ⟨"gpt-4", "ip", "p", "POST"⟩ "EPERM" rfl⟩

/-- C10: on a non-empty messages array whose first content is truthy,
processPrompt returns the very reference it was given and overwrites
that heap cell in place with the tagged first content (other cells are
untouched), so the caller's original request body no longer holds the
pre-transformation content. -/
theorem processPrompt_mutates_in_place (h : OrchestratorAdapter.Heap) (r r2 : Nat)
    (meta : Meta) (m : Message) (rest : List Message)
    (hc : m.content ≠ "") (hr : h r = m :: rest) (hr2 : r2 ≠ r) :
    (OrchestratorAdapter.processPromptOnHeap h r meta).2 = r ∧
    (OrchestratorAdapter.processPromptOnHeap h r meta).1 r =
      { m with content := OrchestratorAdapter.debugMarker ++ m.content } :: rest ∧
    (OrchestratorAdapter.processPromptOnHeap h r meta).1 r2 = h r2 ∧
    (OrchestratorAdapter.processPromptOnHeap h r meta).1 r ≠ h r := by
  have hcell : (OrchestratorAdapter.processPromptOnHeap h r meta).1 r =
      { m with content := OrchestratorAdapter.debugMarker ++ m.content } :: rest := by
    simp [OrchestratorAdapter.processPromptOnHeap, hr, OrchestratorAdapter.processPrompt, hc]
  refine ⟨rfl, hcell, ?_, ?_⟩
  · simp [OrchestratorAdapter.processPromptOnHeap, hr2]
  · rw [hcell, hr]
    intro hEq
    have hm := (List.cons.injEq _ _ _ _ ▸ hEq).1
    exact debugMarker_append_ne m.content (congrArg Message.content hm)

/-- C10 witness. -/
theorem processPrompt_mutates_in_place_witness :
    Message.content ⟨"user", "hi"⟩ ≠ "" ∧
    (fun _ : Nat => [(⟨"user", "hi"⟩ : Message)]) 0 = [⟨"user", "hi"⟩] ∧ (1 : Nat) ≠ 0 ∧
    ((OrchestratorAdapter.processPromptOnHeap (fun _ => [⟨"user", "hi"⟩]) 0
        ⟨"gpt-4", "ip", "p", "POST"⟩).2 = 0 ∧
    (OrchestratorAdapter.processPromptOnHeap (fun _ => [⟨"user", "hi"⟩]) 0
        ⟨"gpt-4", "ip", "p", "POST"⟩).1 0 =
      [⟨"user", OrchestratorAdapter.debugMarker ++ "hi"⟩] ∧
    (OrchestratorAdapter.processPromptOnHeap (fun _ => [⟨"user", "hi"⟩]) 0
        ⟨"gpt-4", "ip", "p", "POST"⟩).1 1 = (fun _ : Nat => [(⟨"user", "hi"⟩ : Message)]) 1 ∧
    (OrchestratorAdapter.processPromptOnHeap (fun _ => [⟨"user", "hi"⟩]) 0
        ⟨"gpt-4", "ip", "p", "POST"⟩).1 0 ≠ (fun _ : Nat => [(⟨"user", "hi"⟩ : Message)]) 0) :=
  ⟨by decide, rfl, by decide,
    processPrompt_mutates_in_place (fun _ => [⟨"user", "hi"⟩]) 0 1
      ⟨"gpt-4", "ip", "p", "POST"⟩ ⟨"user", "hi"⟩ [] (by decide) rfl (by decide)⟩

/-! Round-trip lemmas for the JSON model. -/

namespace JsonModel

/-- digitChar of a value below 10 is a digit character of that value. -/
theorem digitChar_spec (d : Nat) (h : d < 10) :
    isDigitChar (digitChar d) = true ∧ (digitChar d).toNat = 48 + d := by
  interval_cases d <;> exact ⟨by decide, by decide⟩

/-- Unfolding natToDigits below 10. -/
theorem natToDigits_lt (n : Nat) (h : n < 10) : natToDigits n = [digitChar n] := by
  rw [natToDigits]
  simp [h]

/-- Unfolding natToDigits at 10 and above. -/
theorem natToDigits_ge (n : Nat) (h : ¬ n < 10) :
    natToDigits n = natToDigits (n / 10) ++ [digitChar (n % 10)] := by
  rw [natToDigits]
  simp [h]

/-- parseDigits stops immediately on a non-digit head. -/
theorem parseDigits_stop (cs : List Char) (acc : Nat) (hb : headNotDigit cs = true) :
    parseDigits cs acc = (acc, cs) := by
  cases cs with
  | nil => rfl
  | cons c t =>
    have : isDigitChar c = false := by
      simpa [headNotDigit] using hb
    simp [parseDigits, this]

/-- parseDigits consumes exactly the digits of a printed natural,
scaling the accumulator accordingly. -/
theorem parseDigits_chain (n : Nat) :
    ∀ acc rest, parseDigits (natToDigits n ++ rest) acc =
      parseDigits rest (acc * 10 ^ (natToDigits n).length + n) := by
  induction n using Nat.strong_induction_on with
  | _ n ih =>
    intro acc rest
    by_cases h : n < 10
    · rw [natToDigits_lt n h]
      obtain ⟨hd1, hd2⟩ := digitChar_spec n h
      have harith : 10 * acc + ((digitChar n).toNat - 48) = acc * 10 ^ 1 + n := by
        rw [hd2]; ring_nf; omega
      simp only [List.cons_append, List.nil_append, parseDigits, hd1, if_pos, harith,
        List.length_singleton]
      rfl
    · have hdiv : n / 10 < n := Nat.div_lt_self (by omega) (by omega)
      have hmod : n % 10 < 10 := Nat.mod_lt n (by omega)
      obtain ⟨hd1, hd2⟩ := digitChar_spec (n % 10) hmod
      rw [natToDigits_ge n h, List.append_assoc, ih (n / 10) hdiv acc _,
        List.singleton_append]
      have hone : parseDigits (digitChar (n % 10) :: rest)
          (acc * 10 ^ (natToDigits (n / 10)).length + n / 10) =
          parseDigits rest
            (10 * (acc * 10 ^ (natToDigits (n / 10)).length + n / 10) +
              ((digitChar (n % 10)).toNat - 48)) := by
        simp [parseDigits, hd1]
      rw [hone]
      congr 1
      rw [List.length_append, List.length_singleton, hd2, pow_succ]
      have h48 : 48 + n % 10 - 48 = n % 10 := by omega
      rw [h48]
      have hdm : 10 * (n / 10) + n % 10 = n := by omega
      calc 10 * (acc * 10 ^ (natToDigits (n / 10)).length + n / 10) + n % 10
          = acc * (10 ^ (natToDigits (n / 10)).length * 10) + (10 * (n / 10) + n % 10) := by
            ring
        _ = acc * (10 ^ (natToDigits (n / 10)).length * 10) + n := by rw [hdm]

/-- Parsing the printed digits of a natural with a non-digit
continuation recovers the natural. -/
theorem parseDigits_natToDigits (n : Nat) (rest : List Char)
    (hb : headNotDigit rest = true) :
    parseDigits (natToDigits n ++ rest) 0 = (n, rest) := by
  rw [parseDigits_chain n 0 rest, parseDigits_stop rest _ hb]
  simp

/-- The printed digits of a natural start with a digit character. -/
theorem natToDigits_head (n : Nat) :
    ∃ c cs, natToDigits n = c :: cs ∧ isDigitChar c = true := by
  induction n using Nat.strong_induction_on with
  | _ n ih =>
    by_cases h : n < 10
    · exact ⟨digitChar n, [], natToDigits_lt n h, (digitChar_spec n h).1⟩
    · obtain ⟨c, cs, hc, hdig⟩ := ih (n / 10) (Nat.div_lt_self (by omega) (by omega))
      exact ⟨c, cs ++ [digitChar (n % 10)], by rw [natToDigits_ge n h, hc]; rfl, hdig⟩

/-- parseHex inverts hexChar below 16. -/
theorem parseHex_hexChar (k : Nat) (h : k < 16) :
    parseHex (hexChar k) = some k := by
  interval_cases k <;> decide

/-- Parsing one escaped character prepends exactly that character. -/
theorem parse_escapeChar (c : Char) (tail : List Char) :
    parseStringBody (escapeChar c ++ tail) =
      (parseStringBody tail).map (fun r => (c :: r.1, r.2)) := by
  by_cases h1 : c = '"'
  · subst h1; simp only [escapeChar, if_pos, List.cons_append, List.nil_append]
    rw [parseStringBody.eq_def]; simp
  by_cases h2 : c = '\\'
  · subst h2; simp only [escapeChar, if_neg, if_pos, h1, not_false_eq_true,
      List.cons_append, List.nil_append]
    rw [parseStringBody.eq_def]; simp
  by_cases h3 : c = '\x08'
  · subst h3; simp only [escapeChar, if_neg, if_pos, h1, h2, not_false_eq_true,
      List.cons_append, List.nil_append]
    rw [parseStringBody.eq_def]; simp
  by_cases h4 : c = '\x09'
  · subst h4; simp only [escapeChar, if_neg, if_pos, h1, h2, h3, not_false_eq_true,
      List.cons_append, List.nil_append]
    rw [parseStringBody.eq_def]; simp
  by_cases h5 : c = '\x0a'
  · subst h5; simp only [escapeChar, if_neg, if_pos, h1, h2, h3, h4, not_false_eq_true,
      List.cons_append, List.nil_append]
    rw [parseStringBody.eq_def]; simp
  by_cases h6 : c = '\x0c'
  · subst h6; simp only [escapeChar, if_neg, if_pos, h1, h2, h3, h4, h5,
      not_false_eq_true, List.cons_append, List.nil_append]
    rw [parseStringBody.eq_def]; simp
  by_cases h7 : c = '\x0d'
  · subst h7; simp only [escapeChar, if_neg, if_pos, h1, h2, h3, h4, h5, h6,
      not_false_eq_true, List.cons_append, List.nil_append]
    rw [parseStringBody.eq_def]; simp
  by_cases h8 : c.toNat < 32
  · have hdiv : c.toNat / 16 < 16 := by omega
    have hmod : c.toNat % 16 < 16 := by omega
    have hval : ((0 * 16 + 0) * 16 + c.toNat / 16) * 16 + c.toNat % 16 = c.toNat := by
      omega
    simp only [escapeChar, h1, h2, h3, h4, h5, h6, h7, h8, if_neg, if_pos,
      not_false_eq_true, List.cons_append, List.nil_append]
    rw [parseStringBody.eq_def]
    have h0 : parseHex '0' = some 0 := by decide
    simp [h0, parseHex_hexChar _ hdiv, parseHex_hexChar _ hmod]
    have hval2 : c.toNat / 16 * 16 + c.toNat % 16 = c.toNat := by omega
    rw [hval2, Char.ofNat_toNat]
  · simp only [escapeChar, h1, h2, h3, h4, h5, h6, h7, h8, if_neg, not_false_eq_true,
      List.cons_append, List.nil_append]
    rw [parseStringBody.eq_def]
    simp [h1, h2]

/-- Parsing an escaped string body up to the closing quote recovers the
original characters. -/
theorem parse_escapeList (cs tail : List Char) :
    parseStringBody (escapeList cs ++ ('"' :: tail)) = some (cs, tail) := by
  induction cs with
  | nil =>
    simp only [escapeList, List.nil_append]
    rw [parseStringBody.eq_def]
    simp
  | cons c rest ih =>
    rw [escapeList, List.append_assoc, parse_escapeChar c _, ih]
    rfl

/-- A digit character is not the minus sign. -/
theorem digit_ne_minus (c : Char) (h : isDigitChar c = true) : ¬ c = '-' := by
  intro he
  rw [he] at h
  exact absurd h (by decide)

/-- Parsing the printed form of an integer with a non-digit
continuation recovers the integer. -/
theorem parseInt_encodeInt (i : Int) (rest : List Char) (hb : headNotDigit rest = true) :
    parseInt (encodeInt i ++ rest) = some (i, rest) := by
  cases i with
  | ofNat n =>
    obtain ⟨c, cs, hc, hdig⟩ := natToDigits_head n
    have hmain : natToDigits n ++ rest = c :: (cs ++ rest) := by rw [hc]; rfl
    simp only [encodeInt, hmain, parseInt, digit_ne_minus c hdig, if_neg, if_pos,
      not_false_eq_true, hdig]
    rw [← hmain, parseDigits_natToDigits n rest hb]
    rfl
  | negSucc m =>
    obtain ⟨c, cs, hc, hdig⟩ := natToDigits_head (m + 1)
    have hmain : natToDigits (m + 1) ++ rest = c :: (cs ++ rest) := by rw [hc]; rfl
    simp only [encodeInt, List.cons_append, parseInt, if_pos, hmain, hdig]
    rw [← hmain, parseDigits_natToDigits (m + 1) rest hb]
    simp [Int.negSucc_eq]

/-- Every JSON value has positive size. -/
theorem json_sizeOf_pos (e : Json) : 1 ≤ sizeOf e := by
  cases e <;> simp_arith

/-- The first character of an encoded value identifies its kind. -/
theorem encodeJson_head (e : Json) :
    ∃ c cs, encodeJson e = c :: cs ∧
      (c = '"' ∨ c = 'n' ∨ c = 't' ∨ c = 'f' ∨ c = '[' ∨ c = lbrace ∨ c = '-' ∨
        isDigitChar c = true) := by
  cases e with
  | null => exact ⟨'n', ['u', 'l', 'l'], by rw [encodeJson], by simp⟩
  | bool b =>
    cases b with
    | true => exact ⟨'t', ['r', 'u', 'e'], by rw [encodeJson], by simp⟩
    | false => exact ⟨'f', ['a', 'l', 's', 'e'], by rw [encodeJson], by simp⟩
  | num i =>
    cases i with
    | ofNat n =>
      obtain ⟨c, cs, hc, hdig⟩ := natToDigits_head n
      exact ⟨c, cs, by rw [encodeJson]; exact hc, by simp [hdig]⟩
    | negSucc m =>
      exact ⟨'-', natToDigits (m + 1), by rw [encodeJson]; rfl, by simp⟩
  | str s =>
    exact ⟨'"', escapeList s.data ++ ['"'], by rw [encodeJson]; rfl, by simp⟩
  | arr es =>
    cases es with
    | nil => exact ⟨'[', [']'], by rw [encodeJson], by simp⟩
    | cons e es' => exact ⟨'[', encodeElems e es' ++ [']'], by rw [encodeJson], by simp⟩
  | obj fs =>
    cases fs with
    | nil => exact ⟨lbrace, [rbrace], by rw [encodeJson], by simp⟩
    | cons f fs' => exact ⟨lbrace, encodeFields f fs' ++ [rbrace], by rw [encodeJson], by simp⟩

/-- No encoded value starts with a closing square bracket. -/
theorem head_ne_rsquare {c : Char}
    (h : c = '"' ∨ c = 'n' ∨ c = 't' ∨ c = 'f' ∨ c = '[' ∨ c = lbrace ∨ c = '-' ∨
      isDigitChar c = true) : ¬ c = ']' := by
  rcases h with h | h | h | h | h | h | h | h
  all_goals first
    | (subst h; decide)
    | (intro he; subst he; exact absurd h (by decide))

/-- An encoded non-empty element list starts like its first element. -/
theorem encodeElems_head (e : Json) (es : List Json) :
    ∃ c cs, encodeElems e es = c :: cs ∧
      (c = '"' ∨ c = 'n' ∨ c = 't' ∨ c = 'f' ∨ c = '[' ∨ c = lbrace ∨ c = '-' ∨
        isDigitChar c = true) := by
  obtain ⟨c, cs0, hc, hd⟩ := encodeJson_head e
  cases es with
  | nil => exact ⟨c, cs0, by rw [encodeElems]; exact hc, hd⟩
  | cons e2 es' =>
    exact ⟨c, cs0 ++ ',' :: encodeElems e2 es', by rw [encodeElems, hc]; rfl, hd⟩

/-- An encoded non-empty field list starts with a double quote. -/
theorem encodeFields_cons (k : String) (v : Json) (fs : List (String × Json)) :
    ∃ cs, encodeFields (k, v) fs = '"' :: cs := by
  cases fs with
  | nil => exact ⟨escapeList k.data ++ ['"'] ++ ':' :: encodeJson v, by
      rw [encodeFields, encodeField]; rfl⟩
  | cons f2 fs' =>
    exact ⟨(escapeList k.data ++ ['"'] ++ ':' :: encodeJson v) ++
      ',' :: encodeFields f2 fs', by rw [encodeFields, encodeField]; rfl⟩

/-- A digit head is none of the leading keyword or bracket characters. -/
theorem digit_head_cases {c : Char} (h : isDigitChar c = true) :
    ¬ c = '"' ∧ ¬ c = 'n' ∧ ¬ c = 't' ∧ ¬ c = 'f' ∧ ¬ c = '[' ∧ ¬ c = lbrace := by
  refine ⟨?_, ?_, ?_, ?_, ?_, ?_⟩ <;>
    (intro he; subst he; exact absurd h (by decide))

/-- Parsing an encoded value with a non-digit continuation recovers the
value; similarly for the element lists and field lists of its encoding,
with their closing brackets. -/
theorem parse_encode_all (fuel : Nat) :
    (∀ (e : Json) (rest : List Char), sizeOf e ≤ fuel → headNotDigit rest = true →
      parseCore fuel .value (encodeJson e ++ rest) = some (e, rest)) ∧
    (∀ (e : Json) (es : List Json) (rest : List Char), sizeOf e + sizeOf es ≤ fuel →
      parseCore fuel .elements (encodeElems e es ++ ']' :: rest) =
        some (.arr (e :: es), rest)) ∧
    (∀ (k : String) (v : Json) (fs : List (String × Json)) (rest : List Char),
      sizeOf k + sizeOf v + sizeOf fs ≤ fuel →
      parseCore fuel .fieldList (encodeFields (k, v) fs ++ rbrace :: rest) =
        some (.obj ((k, v) :: fs), rest)) := by
  induction fuel using Nat.strong_induction_on with
  | _ fuel IH =>
    refine ⟨?_, ?_, ?_⟩
    · intro e rest hsz hb
      cases fuel with
      | zero => exact absurd hsz (by have := json_sizeOf_pos e; omega)
      | succ f =>
        cases e with
        | null =>
          rw [show encodeJson .null ++ rest = 'n' :: 'u' :: 'l' :: 'l' :: rest by
            rw [encodeJson]; rfl]
          simp [parseCore]
        | bool b =>
          cases b with
          | true =>
            rw [show encodeJson (.bool true) ++ rest = 't' :: 'r' :: 'u' :: 'e' :: rest by
              rw [encodeJson]; rfl]
            simp [parseCore]
          | false =>
            rw [show encodeJson (.bool false) ++ rest =
                'f' :: 'a' :: 'l' :: 's' :: 'e' :: rest by rw [encodeJson]; rfl]
            simp [parseCore]
        | num i =>
          have henc : encodeJson (.num i) = encodeInt i := by rw [encodeJson]
          obtain ⟨c, cs0, hc, hhead⟩ : ∃ c cs0, encodeInt i = c :: cs0 ∧
              (c = '-' ∨ isDigitChar c = true) := by
            cases i with
            | ofNat n =>
              obtain ⟨c, cs0, hc, hd⟩ := natToDigits_head n
              exact ⟨c, cs0, hc, Or.inr hd⟩
            | negSucc m => exact ⟨'-', natToDigits (m + 1), rfl, Or.inl rfl⟩
          have hne : ¬ c = '"' ∧ ¬ c = 'n' ∧ ¬ c = 't' ∧ ¬ c = 'f' ∧ ¬ c = '[' ∧
              ¬ c = lbrace := by
            rcases hhead with h | h
            · subst h
              exact ⟨by decide, by decide, by decide, by decide, by decide, by decide⟩
            · exact digit_head_cases h
          have hint : parseInt (c :: (cs0 ++ rest)) = some (i, rest) := by
            rw [show (c :: (cs0 ++ rest)) = encodeInt i ++ rest by rw [hc]; rfl]
            exact parseInt_encodeInt i rest hb
          rw [henc, hc, List.cons_append]
          simp only [parseCore, hne.1, hne.2.1, hne.2.2.1, hne.2.2.2.1, hne.2.2.2.2.1,
            hne.2.2.2.2.2, if_neg, if_pos, not_false_eq_true, hhead, if_true, hint]
        | str s =>
          have henc : encodeJson (.str s) ++ rest =
              '"' :: (escapeList s.data ++ ('"' :: rest)) := by
            rw [encodeJson]; simp
          have hmk : String.mk s.data = s := by cases s; rfl
          rw [henc]
          simp only [parseCore, if_pos, parse_escapeList, hmk]
        | arr es =>
          cases es with
          | nil =>
            rw [show encodeJson (.arr []) ++ rest = '[' :: ']' :: rest by
              rw [encodeJson]; rfl]
            simp [parseCore]
          | cons e1 es' =>
            have henc : encodeJson (.arr (e1 :: es')) ++ rest =
                '[' :: (encodeElems e1 es' ++ ']' :: rest) := by
              rw [encodeJson]; simp
            obtain ⟨c0, cs0, hc0, hd0⟩ := encodeElems_head e1 es'
            have hc0ne : ¬ c0 = ']' := head_ne_rsquare hd0
            have hsz2 : sizeOf e1 + sizeOf es' ≤ f := by
              simp at hsz; omega
            have hparse := (IH f (Nat.lt_succ_self f)).2.1 e1 es' rest hsz2
            rw [henc]
            simp only [parseCore, show ¬('[' : Char) = '"' by decide,
              show ¬('[' : Char) = 'n' by decide, show ¬('[' : Char) = 't' by decide,
              show ¬('[' : Char) = 'f' by decide, if_neg, if_pos, not_false_eq_true]
            rw [hc0, List.cons_append]
            split
            · next heq =>
              exfalso
              exact hc0ne (List.cons.injEq _ _ _ _ ▸ heq).1
            · next hne2 =>
              rw [← List.cons_append, ← hc0, hparse]
        | obj fs =>
          cases fs with
          | nil =>
            rw [show encodeJson (.obj []) ++ rest = lbrace :: rbrace :: rest by
              rw [encodeJson]; rfl]
            simp only [parseCore, show ¬lbrace = '"' by decide,
              show ¬lbrace = 'n' by decide, show ¬lbrace = 't' by decide,
              show ¬lbrace = 'f' by decide, show ¬lbrace = '[' by decide,
              if_neg, if_pos, not_false_eq_true, if_true]
          | cons f1 fs' =>
            obtain ⟨k1, v1⟩ := f1
            have henc : encodeJson (.obj ((k1, v1) :: fs')) ++ rest =
                lbrace :: (encodeFields (k1, v1) fs' ++ rbrace :: rest) := by
              rw [encodeJson]; simp
            obtain ⟨cs0, hc0⟩ := encodeFields_cons k1 v1 fs'
            have hsz2 : sizeOf k1 + sizeOf v1 + sizeOf fs' ≤ f := by
              simp at hsz; omega
            have hparse := (IH f (Nat.lt_succ_self f)).2.2 k1 v1 fs' rest hsz2
            rw [henc]
            simp only [parseCore, show ¬lbrace = '"' by decide,
              show ¬lbrace = 'n' by decide, show ¬lbrace = 't' by decide,
              show ¬lbrace = 'f' by decide, show ¬lbrace = '[' by decide,
              if_neg, if_pos, not_false_eq_true, if_true]
            rw [hc0, List.cons_append]
            simp only [show ¬('"' : Char) = rbrace by decide, if_neg,
              not_false_eq_true]
            rw [← List.cons_append, ← hc0, hparse]
    · intro e es rest hsz
      cases fuel with
      | zero => exact absurd hsz (by have := json_sizeOf_pos e; omega)
      | succ f =>
        cases es with
        | nil =>
          have hsz2 : sizeOf e ≤ f := by simp at hsz; omega
          have hparse := (IH f (Nat.lt_succ_self f)).1 e (']' :: rest) hsz2 rfl
          rw [show encodeElems e [] = encodeJson e by rw [encodeElems]]
          simp only [parseCore, hparse]
        | cons e2 es' =>
          have hsz1 : sizeOf e ≤ f := by
            have h2 := json_sizeOf_pos e2
            simp at hsz; omega
          have hsz2 : sizeOf e2 + sizeOf es' ≤ f := by
            have h1 := json_sizeOf_pos e
            simp at hsz; omega
          have henc : encodeElems e (e2 :: es') ++ ']' :: rest =
              encodeJson e ++ (',' :: (encodeElems e2 es' ++ ']' :: rest)) := by
            rw [encodeElems]; simp
          have hparse1 := (IH f (Nat.lt_succ_self f)).1 e
            (',' :: (encodeElems e2 es' ++ ']' :: rest)) hsz1 rfl
          have hparse2 := (IH f (Nat.lt_succ_self f)).2.1 e2 es' rest hsz2
          rw [henc]
          simp only [parseCore, hparse1, hparse2]
    · intro k v fs rest hsz
      cases fuel with
      | zero => exact absurd hsz (by have := json_sizeOf_pos v; omega)
      | succ f =>
        have hmkk : String.mk k.data = k := by cases k; rfl
        cases fs with
        | nil =>
          have hsz2 : sizeOf v ≤ f := by simp at hsz; omega
          have henc : encodeFields (k, v) [] ++ rbrace :: rest =
              '"' :: (escapeList k.data ++
                ('"' :: (':' :: (encodeJson v ++ rbrace :: rest)))) := by
            rw [encodeFields, encodeField]; simp
          have hbr : headNotDigit (rbrace :: rest) = true := rfl
          have hparse := (IH f (Nat.lt_succ_self f)).1 v (rbrace :: rest) hsz2 hbr
          rw [henc]
          simp only [parseCore, if_pos, parse_escapeList, hparse, hmkk]
          split
          · next heq => exact absurd heq (by simp)
          · next rest4 heq =>
            exfalso
            have hcm : rbrace = ',' := ((List.cons.injEq _ _ _ _).mp heq).1
            exact absurd hcm (by decide)
          · next c4 rest4 heq =>
            injection heq with ha hb
            subst ha
            subst hb
            simp
        | cons f2 fs' =>
          obtain ⟨k2, v2⟩ := f2
          have hsz1 : sizeOf v ≤ f := by simp at hsz; omega
          have hsz2 : sizeOf k2 + sizeOf v2 + sizeOf fs' ≤ f := by
            have h1 := json_sizeOf_pos v
            simp at hsz; omega
          have henc : encodeFields (k, v) ((k2, v2) :: fs') ++ rbrace :: rest =
              '"' :: (escapeList k.data ++
                ('"' :: (':' :: (encodeJson v ++
                  (',' :: (encodeFields (k2, v2) fs' ++ rbrace :: rest)))))) := by
            rw [encodeFields, encodeField]; simp
          have hparse1 := (IH f (Nat.lt_succ_self f)).1 v
            (',' :: (encodeFields (k2, v2) fs' ++ rbrace :: rest)) hsz1 rfl
          have hparse2 := (IH f (Nat.lt_succ_self f)).2.2 k2 v2 fs' rest hsz2
          rw [henc]
          simp only [parseCore, if_pos, parse_escapeList, hparse1, hparse2, hmkk]

/-- Hexadecimal digit characters are not the newline. -/
theorem hexChar_ne_newline (k : Nat) (h : k < 16) : ¬ '\x0a' = hexChar k := by
  interval_cases k <;> decide

/-- Decimal digit characters are not the newline. -/
theorem digitChar_ne_newline (d : Nat) (h : d < 10) : ¬ '\x0a' = digitChar d := by
  interval_cases d <;> decide

/-- Escaping never emits a raw newline. -/
theorem newline_not_in_escapeChar (c : Char) : '\x0a' ∉ escapeChar c := by
  unfold escapeChar
  split_ifs with h1 h2 h3 h4 h5 h6 h7 h8
  · decide
  · decide
  · decide
  · decide
  · decide
  · decide
  · decide
  · have ha := hexChar_ne_newline (c.toNat / 16) (by omega)
    have hb := hexChar_ne_newline (c.toNat % 16) (by omega)
    simp [ha, hb]
  · simp
    intro he
    exact h5 he.symm

/-- An escaped string body contains no raw newline. -/
theorem newline_not_in_escapeList (cs : List Char) : '\x0a' ∉ escapeList cs := by
  induction cs with
  | nil => simp [escapeList]
  | cons c rest ih =>
    rw [escapeList]
    simp only [List.mem_append]
    rintro (h | h)
    · exact newline_not_in_escapeChar c h
    · exact ih h

/-- Printed digits contain no newline. -/
theorem newline_not_in_natToDigits (n : Nat) : '\x0a' ∉ natToDigits n := by
  induction n using Nat.strong_induction_on with
  | _ n ih =>
    by_cases h : n < 10
    · rw [natToDigits_lt n h]
      simp [digitChar_ne_newline n h]
    · rw [natToDigits_ge n h]
      simp only [List.mem_append, List.mem_singleton]
      rintro (hm | hm)
      · exact ih (n / 10) (Nat.div_lt_self (by omega) (by omega)) hm
      · exact digitChar_ne_newline (n % 10) (Nat.mod_lt n (by omega)) hm

/-- A printed integer contains no newline. -/
theorem newline_not_in_encodeInt (i : Int) : '\x0a' ∉ encodeInt i := by
  cases i with
  | ofNat n => exact newline_not_in_natToDigits n
  | negSucc m =>
    rw [encodeInt]
    simp only [List.mem_cons]
    rintro (h | h)
    · exact absurd h (by decide)
    · exact newline_not_in_natToDigits (m + 1) h

/-- No encoded JSON value, element list or field list contains a raw
newline character. -/
theorem newline_not_in_encode (bound : Nat) :
    (∀ e : Json, sizeOf e ≤ bound → '\x0a' ∉ encodeJson e) ∧
    (∀ (e : Json) (es : List Json), sizeOf e + sizeOf es ≤ bound →
      '\x0a' ∉ encodeElems e es) ∧
    (∀ (k : String) (v : Json) (fs : List (String × Json)),
      sizeOf k + sizeOf v + sizeOf fs ≤ bound → '\x0a' ∉ encodeFields (k, v) fs) := by
  induction bound using Nat.strong_induction_on with
  | _ bound IH =>
    have hfield : ∀ (k : String) (v : Json), sizeOf v ≤ bound - 1 → bound ≥ 1 →
        '\x0a' ∉ encodeField (k, v) := by
      intro k v hv hb
      rw [encodeField]
      intro hmem
      rcases List.mem_cons.mp hmem with h | hmem
      · exact absurd h (by decide)
      rcases List.mem_append.mp hmem with hmem | hmem
      · rcases List.mem_append.mp hmem with h | h
        · exact newline_not_in_escapeList k.data h
        · exact absurd h (by decide)
      · rcases List.mem_cons.mp hmem with h | h
        · exact absurd h (by decide)
        · exact (IH (bound - 1) (by omega)).1 v hv h
    refine ⟨?_, ?_, ?_⟩
    · intro e hsz
      cases e with
      | null => rw [encodeJson]; decide
      | bool b => cases b <;> (rw [encodeJson]; decide)
      | num i => rw [encodeJson]; exact newline_not_in_encodeInt i
      | str s =>
        rw [encodeJson]
        simp only [List.cons_append, List.mem_cons, List.mem_append, List.mem_singleton]
        rintro (h | h | h)
        · exact absurd h (by decide)
        · exact newline_not_in_escapeList s.data h
        · exact absurd h (by decide)
      | arr es =>
        cases es with
        | nil => rw [encodeJson]; decide
        | cons e1 es' =>
          rw [encodeJson]
          simp only [List.mem_cons, List.mem_append, List.mem_singleton]
          have hsz2 : sizeOf e1 + sizeOf es' ≤ bound - 1 := by simp at hsz; omega
          have hb1 : bound ≥ 1 := by
            have := json_sizeOf_pos e1
            simp at hsz; omega
          rintro (h | h | h)
          · exact absurd h (by decide)
          · exact (IH (bound - 1) (by omega)).2.1 e1 es' hsz2 h
          · exact absurd h (by decide)
      | obj fs =>
        cases fs with
        | nil => rw [encodeJson]; decide
        | cons f1 fs' =>
          obtain ⟨k1, v1⟩ := f1
          rw [encodeJson]
          simp only [List.mem_cons, List.mem_append, List.mem_singleton]
          have hsz2 : sizeOf k1 + sizeOf v1 + sizeOf fs' ≤ bound - 1 := by
            simp at hsz; omega
          have hb1 : bound ≥ 1 := by simp at hsz; omega
          rintro (h | h | h)
          · exact absurd h (by decide)
          · exact (IH (bound - 1) (by omega)).2.2 k1 v1 fs' hsz2 h
          · exact absurd h (by decide)
    · intro e es hsz
      have hb1 : bound ≥ 1 := by
        have := json_sizeOf_pos e
        omega
      cases es with
      | nil =>
        rw [encodeElems]
        have hsz1 : sizeOf e ≤ bound - 1 := by simp at hsz; omega
        exact (IH (bound - 1) (by omega)).1 e hsz1
      | cons e2 es' =>
        rw [encodeElems]
        simp only [List.mem_append, List.mem_cons]
        have hsz1 : sizeOf e ≤ bound - 1 := by
          have := json_sizeOf_pos e2
          simp at hsz; omega
        have hsz2 : sizeOf e2 + sizeOf es' ≤ bound - 1 := by
          have := json_sizeOf_pos e
          simp at hsz; omega
        rintro (h | h | h)
        · exact (IH (bound - 1) (by omega)).1 e hsz1 h
        · exact absurd h (by decide)
        · exact (IH (bound - 1) (by omega)).2.1 e2 es' hsz2 h
    · intro k v fs hsz
      have hb1 : bound ≥ 1 := by
        have := json_sizeOf_pos v
        omega
      cases fs with
      | nil =>
        rw [encodeFields]
        exact hfield k v (by simp at hsz; omega) hb1
      | cons f2 fs' =>
        obtain ⟨k2, v2⟩ := f2
        rw [encodeFields]
        simp only [List.mem_append, List.mem_cons]
        have hsz2 : sizeOf k2 + sizeOf v2 + sizeOf fs' ≤ bound - 1 := by
          have := json_sizeOf_pos v
          simp at hsz; omega
        rintro (h | h | h)
        · exact hfield k v (by simp at hsz; omega) hb1 h
        · exact absurd h (by decide)
        · exact (IH (bound - 1) (by omega)).2.2 k2 v2 fs' hsz2 h

/-- Every printed digit character is a digit. -/
theorem natToDigits_digits (n : Nat) : ∀ c ∈ natToDigits n, isDigitChar c = true := by
  induction n using Nat.strong_induction_on with
  | _ n ih =>
    intro c hc
    by_cases h : n < 10
    · rw [natToDigits_lt n h] at hc
      rw [List.mem_singleton.mp hc]
      exact (digitChar_spec n h).1
    · rw [natToDigits_ge n h] at hc
      rcases List.mem_append.mp hc with hm | hm
      · exact ih (n / 10) (Nat.div_lt_self (by omega) (by omega)) c hm
      · rw [List.mem_singleton.mp hm]
        exact (digitChar_spec (n % 10) (Nat.mod_lt n (by omega))).1

/-- A natural below the w-th power of ten prints in at most w digits. -/
theorem natToDigits_len_le : ∀ (n w : Nat), 1 ≤ w → n < 10 ^ w →
    (natToDigits n).length ≤ w := by
  intro n
  induction n using Nat.strong_induction_on with
  | _ n ih =>
    intro w hw hlt
    by_cases h : n < 10
    · rw [natToDigits_lt n h]
      simpa using hw
    · have hw2 : 2 ≤ w := by
        rcases Nat.lt_or_ge w 2 with hcase | hcase
        · exfalso
          have hw1 : w = 1 := by omega
          rw [hw1] at hlt
          simp at hlt
          omega
        · exact hcase
      have hdivlt : n / 10 < 10 ^ (w - 1) := by
        rw [Nat.div_lt_iff_lt_mul (by omega)]
        have : 10 ^ (w - 1) * 10 = 10 ^ w := by
          rw [← pow_succ]
          congr 1
          omega
        omega
      have := ih (n / 10) (Nat.div_lt_self (by omega) (by omega)) (w - 1) (by omega) hdivlt
      rw [natToDigits_ge n h, List.length_append, List.length_singleton]
      omega

/-- Zero-padding to width w yields w digit characters. -/
theorem padDigits_shape (w n : Nat) (hw : 1 ≤ w) (hlt : n < 10 ^ w) :
    (padDigits w n).length = w ∧ ∀ c ∈ padDigits w n, isDigitChar c = true := by
  have hlen := natToDigits_len_le n w hw hlt
  constructor
  · rw [padDigits, List.length_append, List.length_replicate]
    omega
  · intro c hc
    rw [padDigits] at hc
    rcases List.mem_append.mp hc with h | h
    · rw [List.eq_of_mem_replicate h]
      decide
    · exact natToDigits_digits n c h

/-- A character list of length two is a pair. -/
theorem list_two {l : List Char} (h : l.length = 2) : ∃ a b, l = [a, b] := by
  cases l with
  | nil => simp at h
  | cons a t =>
    cases t with
    | nil => simp at h
    | cons b t2 =>
      cases t2 with
      | nil => exact ⟨a, b, rfl⟩
      | cons c t3 => simp at h

/-- A character list of length three is a triple. -/
theorem list_three {l : List Char} (h : l.length = 3) : ∃ a b c, l = [a, b, c] := by
  cases l with
  | nil => simp at h
  | cons a t =>
    obtain ⟨b, c, hbc⟩ := list_two (l := t) (by simpa using h)
    exact ⟨a, b, c, by rw [hbc]⟩

/-- A character list of length four is a quadruple. -/
theorem list_four {l : List Char} (h : l.length = 4) : ∃ a b c d, l = [a, b, c, d] := by
  cases l with
  | nil => simp at h
  | cons a t =>
    obtain ⟨b, c, d, hbcd⟩ := list_three (l := t) (by simpa using h)
    exact ⟨a, b, c, d, by rw [hbcd]⟩

/-- Two-digit zero-padding: shape, digit characters and value. -/
theorem pad2_value (n : Nat) (h : n ≤ 99) : ∃ a b, padDigits 2 n = [a, b] ∧
    isDigitChar a = true ∧ isDigitChar b = true ∧
    (a.toNat - 48) * 10 + (b.toNat - 48) = n := by
  by_cases hlt : n < 10
  · obtain ⟨hda, hdb⟩ := digitChar_spec n hlt
    refine ⟨'0', digitChar n, ?_, by decide, hda, ?_⟩
    · rw [padDigits, natToDigits_lt n hlt]
      rfl
    · have h0 : ('0' : Char).toNat = 48 := rfl
      omega
  · have hdiv : n / 10 < 10 := by omega
    obtain ⟨hda1, hda2⟩ := digitChar_spec (n / 10) hdiv
    obtain ⟨hdb1, hdb2⟩ := digitChar_spec (n % 10) (Nat.mod_lt n (by omega))
    refine ⟨digitChar (n / 10), digitChar (n % 10), ?_, hda1, hdb1, ?_⟩
    · rw [padDigits, natToDigits_ge n (by omega), natToDigits_lt (n / 10) hdiv]
      rfl
    · omega

/-- An ISO rendering of an in-range instant passes the timestamp
checker. -/
theorem isValidTimestamp_toISOString (d : DateTime) (h : d.WF) :
    isValidTimestamp (toISOString d) = true := by
  obtain ⟨hy, hmo1, hmo2, hd1, hd2, hh, hmi, hse, hms⟩ := h
  have hyear := padDigits_shape 4 d.year (by omega) (by norm_num; omega)
  obtain ⟨y1, y2, y3, y4, hyeq⟩ := list_four hyear.1
  have hydig : isDigitChar y1 = true ∧ isDigitChar y2 = true ∧ isDigitChar y3 = true ∧
      isDigitChar y4 = true := by
    refine ⟨?_, ?_, ?_, ?_⟩ <;> (apply hyear.2; rw [hyeq]; simp)
  have hmsp := padDigits_shape 3 d.ms (by omega) (by norm_num; omega)
  obtain ⟨f1, f2, f3, hfeq⟩ := list_three hmsp.1
  have hfdig : isDigitChar f1 = true ∧ isDigitChar f2 = true ∧ isDigitChar f3 = true := by
    refine ⟨?_, ?_, ?_⟩ <;> (apply hmsp.2; rw [hfeq]; simp)
  obtain ⟨mo1, mo2, hmoeq, hmod1, hmod2, hmoval⟩ := pad2_value d.month (by omega)
  obtain ⟨dd1, dd2, hddeq, hddd1, hddd2, hddval⟩ := pad2_value d.day (by omega)
  obtain ⟨hh1, hh2, hheq, hhd1, hhd2, hhval⟩ := pad2_value d.hour (by omega)
  obtain ⟨mi1, mi2, hmieq, hmid1, hmid2, hmival⟩ := pad2_value d.minute (by omega)
  obtain ⟨se1, se2, hseeq, hsed1, hsed2, hseval⟩ := pad2_value d.second (by omega)
  have hdata : (toISOString d).data =
      padDigits 4 d.year ++ '-' :: padDigits 2 d.month ++ '-' :: padDigits 2 d.day
      ++ 'T' :: padDigits 2 d.hour ++ ':' :: padDigits 2 d.minute
      ++ ':' :: padDigits 2 d.second ++ '.' :: padDigits 3 d.ms ++ ['Z'] := rfl
  rw [isValidTimestamp, hdata, hyeq, hmoeq, hddeq, hheq, hmieq, hseeq, hfeq]
  simp only [List.cons_append, List.nil_append, List.append_assoc]
  simp only [Bool.and_eq_true, beq_self_eq_true, decide_eq_true_eq]
  refine ⟨⟨⟨⟨⟨⟨⟨?_, ?_⟩, ?_⟩, ?_⟩, ?_⟩, ?_⟩, ?_⟩, ?_⟩ <;> try omega
  all_goals simp [hydig.1, hydig.2.1, hydig.2.2.1, hydig.2.2.2, hmod1, hmod2,
    hddd1, hddd2, hhd1, hhd2, hmid1, hmid2, hsed1, hsed2, hfdig.1, hfdig.2.1,
    hfdig.2.2]

end JsonModel

/-- C9: one record call appends exactly one line to the day file (the
serialized entry holds no raw newline), parsing that line back yields a
JSON object structurally equal to the ts, phase, data object that was
recorded, and the recorded ts passes the timestamp checker. -/
theorem record_roundtrip (file : List Char) (d : JsonModel.DateTime) (phase : String)
    (data : JsonModel.Json) (hwf : d.WF) :
    (JsonModel.appendRecord file (JsonModel.toISOString d) phase data).count '\x0a' =
      file.count '\x0a' + 1 ∧
    '\x0a' ∉ JsonModel.logLine (JsonModel.toISOString d) phase data ∧
    JsonModel.parseJson
        (sizeOf (JsonModel.logEntryJson (JsonModel.toISOString d) phase data))
        (JsonModel.logLine (JsonModel.toISOString d) phase data) =
      some (JsonModel.logEntryJson (JsonModel.toISOString d) phase data, []) ∧
    JsonModel.isValidTimestamp (JsonModel.toISOString d) = true := by
  have hnl : '\x0a' ∉ JsonModel.logLine (JsonModel.toISOString d) phase data :=
    (JsonModel.newline_not_in_encode
      (sizeOf (JsonModel.logEntryJson (JsonModel.toISOString d) phase data))).1 _ le_rfl
  refine ⟨?_, hnl, ?_, JsonModel.isValidTimestamp_toISOString d hwf⟩
  · rw [JsonModel.appendRecord, List.count_append, List.count_append,
      List.count_eq_zero.mpr hnl]
    rfl
  · rw [JsonModel.parseJson,
      show JsonModel.logLine (JsonModel.toISOString d) phase data =
        JsonModel.encodeJson
          (JsonModel.logEntryJson (JsonModel.toISOString d) phase data) ++ [] by
        simp [JsonModel.logLine]]
    exact (JsonModel.parse_encode_all _).1 _ [] le_rfl rfl

/-- C9 witness: a concrete instant, phase and payload. -/
theorem record_roundtrip_witness :
    JsonModel.DateTime.WF ⟨2026, 10, 11, 7, 30, 15, 250⟩ ∧
    ((JsonModel.appendRecord ['x', '\x0a']
        (JsonModel.toISOString ⟨2026, 10, 11, 7, 30, 15, 250⟩) "inbound"
        (JsonModel.Json.obj
          [("messages", JsonModel.Json.arr [JsonModel.Json.str "hi",
            JsonModel.Json.num (-5)])])).count '\x0a' =
      (['x', '\x0a'] : List Char).count '\x0a' + 1 ∧
    '\x0a' ∉ JsonModel.logLine (JsonModel.toISOString ⟨2026, 10, 11, 7, 30, 15, 250⟩)
        "inbound"
        (JsonModel.Json.obj
          [("messages", JsonModel.Json.arr [JsonModel.Json.str "hi",
            JsonModel.Json.num (-5)])]) ∧
    JsonModel.parseJson
        (sizeOf (JsonModel.logEntryJson
          (JsonModel.toISOString ⟨2026, 10, 11, 7, 30, 15, 250⟩) "inbound"
          (JsonModel.Json.obj
            [("messages", JsonModel.Json.arr [JsonModel.Json.str "hi",
              JsonModel.Json.num (-5)])])))
        (JsonModel.logLine (JsonModel.toISOString ⟨2026, 10, 11, 7, 30, 15, 250⟩)
          "inbound"
          (JsonModel.Json.obj
            [("messages", JsonModel.Json.arr [JsonModel.Json.str "hi",
              JsonModel.Json.num (-5)])])) =
      some (JsonModel.logEntryJson
        (JsonModel.toISOString ⟨2026, 10, 11, 7, 30, 15, 250⟩) "inbound"
        (JsonModel.Json.obj
          [("messages", JsonModel.Json.arr [JsonModel.Json.str "hi",
            JsonModel.Json.num (-5)])]), []) ∧
    JsonModel.isValidTimestamp
      (JsonModel.toISOString ⟨2026, 10, 11, 7, 30, 15, 250⟩) = true) :=
  ⟨by unfold JsonModel.DateTime.WF; decide,
    record_roundtrip ['x', '\x0a'] ⟨2026, 10, 11, 7, 30, 15, 250⟩ "inbound"
      (JsonModel.Json.obj
        [("messages", JsonModel.Json.arr [JsonModel.Json.str "hi",
          JsonModel.Json.num (-5)])])
      (by unfold JsonModel.DateTime.WF; decide)⟩

end ModularKB
